import Mathlib

/-!
Shallow embedding of `src/generate_sql.py` (a one-shot batch script that
reads visitor rows and renders SQL INSERT statements).

Modelling conventions:
* Python strings are Lean `String`s; the normalizers work on `List Char`.
* Python's `\d` / `\w` / `\s` character classes are modelled over ASCII
  (`Char.isDigit`, ASCII letters/digits/underscore, and the ASCII
  whitespace characters Python's `str.strip` removes), which covers every
  input the spec and its examples talk about.
* `uuid.uuid4()` (the only nondeterministic step) is modelled as an oracle
  parameter `g : Nat → String` giving the fresh identifier for each row.
* Recursive scanners that consume a suffix of the input in one step are
  written with an explicit fuel argument (fuel = length of the input + 1
  always suffices, and every top-level wrapper supplies it), so that all
  definitions are structural and evaluate by `decide` / `rfl`.
-/

/-- The single-quote character (ASCII 39), kept out of string literals. -/
def qc : Char := Char.ofNat 39

/-- The single-quote character as a one-character string. -/
def qs : String := String.singleton qc

/-- Whitespace in the sense of Python's `str.strip()` / regex `\s`
(ASCII part): space, tab, newline, carriage return, vertical tab, form feed. -/
def pySpace (c : Char) : Bool :=
  c = ' ' || c = '\t' || c = '\n' || c = '\r' || c = Char.ofNat 11 || c = Char.ofNat 12

/-- Python `str.strip()`: drop leading and trailing whitespace. -/
def pyStrip (l : List Char) : List Char :=
  ((l.dropWhile pySpace).reverse.dropWhile pySpace).reverse

/-- Python `str.lower()` (ASCII). -/
def lowerL (l : List Char) : List Char :=
  l.map Char.toLower

/-- `clean_phone` from `generate_sql.py`:
remove all non-digits, take the last 10 if more than 10 digits remain,
return `None` if fewer than 10 remain (or the input is empty). -/
def clean_phone (s : String) : Option String :=
  if s = "" then none
  else
    let digits := s.toList.filter Char.isDigit
    let digits := if digits.length > 10 then digits.drop (digits.length - 10) else digits
    if digits.length < 10 then none else some (String.mk digits)

/-! ## Companion-count parser (`parse_accompanying_count`) -/

/-- The fixed "nobody" phrases checked against the stripped, lowered text. -/
def nobodyPhrases : List (List Char) :=
  ["no one", "none", "0", "alone", "-", "."].map String.toList

/-- The fixed role words a segment must exactly equal to be ignored. -/
def roleWords : List (List Char) :=
  ["father", "mother", "sister", "brother", "friend", "cousin",
   "elder sister", "dad", "mom", "husband", "wife", "classmate",
   "grandfather", "grandmother"].map String.toList

/-- Helper for `re.sub` with pattern `\([^)]*\)`: drop characters up to and
including the first close-paren, or `none` if there is none. -/
def dropUntilClose : List Char → Option (List Char)
  | [] => none
  | c :: rest => if c = ')' then some rest else dropUntilClose rest

/-- `re.sub(r'\([^)]*\)', '', text)`: remove each open-paren together with
the characters up to the first following close-paren; an open-paren with no
matching close is kept (fuel-indexed scanner). -/
def removeParensF : Nat → List Char → List Char
  | 0, l => l
  | _ + 1, [] => []
  | fuel + 1, c :: rest =>
    if c = '(' then
      match dropUntilClose rest with
      | some rest2 => removeParensF fuel rest2
      | none => c :: removeParensF fuel rest
    else c :: removeParensF fuel rest

/-- Characters of the regex class `[,;&\n]`. -/
def isListDelim (c : Char) : Bool :=
  c = ',' || c = ';' || c = '&' || c = '\n'

/-- `re.sub(r'[,;&\n]+', '|', text)`: each maximal run of list delimiters
becomes a single bar sentinel. -/
def subDelimsF : Nat → List Char → List Char
  | 0, l => l
  | _ + 1, [] => []
  | fuel + 1, c :: rest =>
    if isListDelim c then '|' :: subDelimsF fuel (rest.dropWhile isListDelim)
    else c :: subDelimsF fuel rest

/-- `re.sub(r'\s+and\s+', '|', text)`: scanning left to right, a whitespace
run immediately followed by `and` and at least one more whitespace character
is replaced (with its trailing whitespace run) by a single bar sentinel. -/
def subAndF : Nat → List Char → List Char
  | 0, l => l
  | _ + 1, [] => []
  | fuel + 1, c :: rest =>
    if pySpace c then
      match rest.dropWhile pySpace with
      | 'a' :: 'n' :: 'd' :: c2 :: rest2 =>
        if pySpace c2 then '|' :: subAndF fuel (rest2.dropWhile pySpace)
        else (c :: rest.takeWhile pySpace) ++ subAndF fuel (rest.dropWhile pySpace)
      | _ => (c :: rest.takeWhile pySpace) ++ subAndF fuel (rest.dropWhile pySpace)
    else c :: subAndF fuel rest

/-- `re.sub(r'\s+-\s+', '|', text)`: a whitespace run, a hyphen, and at
least one more whitespace character become a single bar sentinel. -/
def subHyphF : Nat → List Char → List Char
  | 0, l => l
  | _ + 1, [] => []
  | fuel + 1, c :: rest =>
    if pySpace c then
      match rest.dropWhile pySpace with
      | '-' :: c2 :: rest2 =>
        if pySpace c2 then '|' :: subHyphF fuel (rest2.dropWhile pySpace)
        else (c :: rest.takeWhile pySpace) ++ subHyphF fuel (rest.dropWhile pySpace)
      | _ => (c :: rest.takeWhile pySpace) ++ subHyphF fuel (rest.dropWhile pySpace)
    else c :: subHyphF fuel rest

/-- Python `text.split('|')`. -/
def splitBar : List Char → List (List Char)
  | [] => [[]]
  | c :: rest =>
    if c = '|' then [] :: splitBar rest
    else
      match splitBar rest with
      | [] => [[c]]
      | p :: ps => (c :: p) :: ps

/-- Decimal digit character for a value below ten. -/
def digitChar : Nat → Char
  | 0 => '0' | 1 => '1' | 2 => '2' | 3 => '3' | 4 => '4'
  | 5 => '5' | 6 => '6' | 7 => '7' | 8 => '8' | 9 => '9'
  | _ => '0'

/-- Fuel-indexed accumulator loop for decimal rendering. -/
def natToDecAux : Nat → Nat → List Char → List Char
  | 0, _, acc => acc
  | fuel + 1, n, acc =>
    if n = 0 then acc else natToDecAux fuel (n / 10) (digitChar (n % 10) :: acc)

/-- Python `str(n)` for a non-negative count: decimal text. -/
def natToDec (n : Nat) : String :=
  if n = 0 then "0" else String.mk (natToDecAux (n + 1) n [])

/-- `parse_accompanying_count` from `generate_sql.py`: count people in the
companion free-text field (see the staged scanners above for the regex
substitutions the source performs). -/
def parse_accompanying_count (s : String) : String :=
  let l := s.toList
  if l.isEmpty || (pyStrip l).isEmpty then "0"
  else
    let text := lowerL (pyStrip l)
    if nobodyPhrases.contains text then "0"
    else
      let t1 := removeParensF (text.length + 1) text
      let t2 := subDelimsF (t1.length + 1) t1
      let t3 := subAndF (t2.length + 1) t2
      let t4 := subHyphF (t3.length + 1) t3
      let parts := ((splitBar t4).map pyStrip).filter (fun p => p ≠ [])
      natToDec (parts.foldl
        (fun acc p => if roleWords.contains (lowerL p) then acc else acc + 1) 0)

/-! ## Interest-list parser (`parse_area_of_interest`) -/

/-- Python `text.split(',')`. -/
def splitComma : List Char → List (List Char)
  | [] => [[]]
  | c :: rest =>
    if c = ',' then [] :: splitComma rest
    else
      match splitComma rest with
      | [] => [[c]]
      | p :: ps => (c :: p) :: ps

/-- Python `i.replace(chr(34), chr(92) + chr(34))`: backslash-escape every
double quote. -/
def escDq : List Char → List Char
  | [] => []
  | c :: rest => if c = '"' then '\\' :: '"' :: escDq rest else c :: escDq rest

/-- `parse_area_of_interest` from `generate_sql.py`: split on commas, strip,
drop empties, escape double quotes, double-quote each entry, join with
commas inside square brackets; empty or whitespace-only input gives `[]`. -/
def parse_area_of_interest (s : String) : String :=
  let l := s.toList
  if l.isEmpty || (pyStrip l).isEmpty then "[]"
  else
    let interests := ((splitComma l).map pyStrip).filter (fun p => p ≠ [])
    let escaped := interests.map (fun i => "\"" ++ String.mk (escDq i) ++ "\"")
    "[" ++ String.intercalate "," escaped ++ "]"

/-! ## Date parser (`parse_date`) -/

/-- The regex word class `\w` (ASCII): letters, digits, underscore. -/
def isWordChar (c : Char) : Bool :=
  c.isAlpha || c.isDigit || c = '_'

/-- The two-character ordinal suffixes of `(?:st|nd|rd|th)`. -/
def ordSuffixes : List (List Char) :=
  [['s', 't'], ['n', 'd'], ['r', 'd'], ['t', 'h']]

/-- Attempt the part of the pattern
`(\d+)(?:st|nd|rd|th)\s+(\w+)\s+(\d{4})` that follows the digit run:
ordinal suffix, whitespace, word (month group), whitespace, four digits
(year group). Returns the month and year captures on success. Because the
character classes involved are pairwise disjoint where the pattern
switches between them, greedy matching needs no backtracking here. -/
def dateTail (l : List Char) : Option (List Char × List Char) :=
  match l with
  | c1 :: c2 :: r1 =>
    if ordSuffixes.contains [c1, c2] then
      match r1 with
      | c3 :: r2 =>
        if pySpace c3 then
          let r3 := r2.dropWhile pySpace
          let month := r3.takeWhile isWordChar
          if month.isEmpty then none
          else
            match r3.dropWhile isWordChar with
            | c4 :: r5 =>
              if pySpace c4 then
                let r6 := r5.dropWhile pySpace
                let year := r6.take 4
                if year.length = 4 && year.all Char.isDigit then some (month, year)
                else none
              else none
            | [] => none
        else none
      | [] => none
    else none
  | _ => none

/-- `re.search(r'(\d+)(?:st|nd|rd|th)\s+(\w+)\s+(\d{4})', s)`: leftmost
match, returning the three captures (day digits, month word, year digits).
A failed attempt at a digit run fails identically from every position
inside the run, so the scan resumes after the run (fuel-indexed). -/
def findDateMatchF : Nat → List Char → Option (List Char × List Char × List Char)
  | 0, _ => none
  | _ + 1, [] => none
  | fuel + 1, c :: rest =>
    if c.isDigit then
      let day := (c :: rest).takeWhile Char.isDigit
      let r1 := (c :: rest).dropWhile Char.isDigit
      match dateTail r1 with
      | some (month, year) => some (day, month, year)
      | none => findDateMatchF fuel r1
    else findDateMatchF fuel rest

/-- Leftmost date-pattern match in a list of characters. -/
def findDateMatch (l : List Char) : Option (List Char × List Char × List Char) :=
  findDateMatchF (l.length + 1) l

/-- The fixed twelve-month lookup of `parse_date`. -/
def monthsTable : List (List Char × String) :=
  [("january", "01"), ("february", "02"), ("march", "03"), ("april", "04"),
   ("may", "05"), ("june", "06"), ("july", "07"), ("august", "08"),
   ("september", "09"), ("october", "10"), ("november", "11"),
   ("december", "12")].map (fun p => (String.toList p.1, p.2))

/-- `months.get(month_name.lower())`. -/
def monthNum (m : List Char) : Option String :=
  (monthsTable.find? (fun p => p.1 = m)).map (fun p => p.2)

/-- Python `day.zfill(2)` for the captured day digits. -/
def zfill2 (l : List Char) : List Char :=
  if l.length ≥ 2 then l
  else if l.length = 1 then '0' :: l
  else '0' :: '0' :: l

/-- `parse_date` from `generate_sql.py`: find the leftmost
day-ordinal / month-word / 4-digit-year occurrence, map the month word
through the fixed twelve-month lookup, and format `YYYY-MM-DD` with the day
zero-padded to at least two digits; `None` when the pattern is absent or
the matched month word is unrecognized. -/
def parse_date (s : String) : Option String :=
  if s = "" then none
  else
    match findDateMatch s.toList with
    | none => none
    | some (day, month, year) =>
      match monthNum (lowerL month) with
      | none => none
      | some mm => some (String.mk year ++ "-" ++ mm ++ "-" ++ String.mk (zfill2 day))

/-! ## SQL string escaper (`escape_sql_string`) -/

/-- Python `s.replace(chr(39), chr(39)*2)`: double every single quote. -/
def escQuoteChars : List Char → List Char
  | [] => []
  | c :: rest => if c = qc then qc :: qc :: escQuoteChars rest else c :: escQuoteChars rest

/-- `escape_sql_string` from `generate_sql.py`: `None` passes through,
otherwise every single-quote character is doubled. -/
def escape_sql_string : Option String → Option String
  | none => none
  | some s => some (String.mk (escQuoteChars s.toList))

/-! ## Email validator (`validate_email`) -/

/-- The regex class `[a-zA-Z0-9._%+-]` of the email local part. -/
def isLocalChar (c : Char) : Bool :=
  c.isAlpha || c.isDigit || c = '.' || c = '_' || c = '%' || c = '+' || c = '-'

/-- The regex class `[a-zA-Z0-9.-]` of the email domain part. -/
def isDomainChar (c : Char) : Bool :=
  c.isAlpha || c.isDigit || c = '.' || c = '-'

/-- Matcher for the anchored pattern
`^[a-zA-Z0-9._%+-]+@[a-zA-Z0-9.-]+\.[a-zA-Z]{2,}$`.
Since the local class excludes the at-sign and the final label is dot-free,
a full match exists exactly when: the maximal local-class prefix is
nonempty and followed by an at-sign, the remainder is all domain-class
characters containing a dot, the text after the last dot is at least two
letters, and at least one character precedes that last dot. -/
def emailRegexMatch (l : List Char) : Bool :=
  match l.dropWhile isLocalChar with
  | [] => false
  | a :: dom =>
    a = '@' && decide (l.takeWhile isLocalChar ≠ []) && dom.all isDomainChar &&
      dom.contains '.' &&
      decide (2 ≤ (dom.reverse.takeWhile (fun c => c ≠ '.')).length) &&
      (dom.reverse.takeWhile (fun c => c ≠ '.')).all Char.isAlpha &&
      decide ((dom.reverse.takeWhile (fun c => c ≠ '.')).length + 2 ≤ dom.length)

/-- `validate_email` from `generate_sql.py`: strip and lowercase, return
the result when the anchored pattern matches, else `None`. -/
def validate_email (s : String) : Option String :=
  let l := s.toList
  if l.isEmpty || (pyStrip l).isEmpty then none
  else
    let e := lowerL (pyStrip l)
    if emailRegexMatch e then some (String.mk e) else none

/-! ## Row renderer and pipeline (main script, lines 112–153) -/

/-- One raw input row: the six fields the script consumes
(`Name`, `EmailID`, `Mobile`, `Column E`, `Visit Date`, `Interest`). -/
structure Row where
  name : String
  emailID : String
  mobile : String
  columnE : String
  visitDate : String
  interest : String
deriving Inhabited, DecidableEq

/-- Line 126: the name is stripped when non-empty, defaulted to the empty
string when empty, and quote-escaped; the result is the content of the
single-quoted name literal. -/
def nameContent (n : String) : String :=
  String.mk (escQuoteChars (if n = "" then [] else pyStrip n.toList))

/-- Wrap a value in single-quote delimiters. -/
def q (s : String) : String := qs ++ s ++ qs

/-- Lines 127–128: the rendered email token (quoted literal or `null`). -/
def emailField (e : String) : String :=
  match validate_email e with
  | some v => q v
  | none => "null"

/-- Lines 130–131: the rendered phone token. -/
def phoneField (p : String) : String :=
  match clean_phone p with
  | some v => q v
  | none => "null"

/-- Lines 135–138: the rendered visit-date token (used for both the
`date_of_visit_from` and `date_of_visit_to` columns). -/
def dateField (d : String) : String :=
  match parse_date d with
  | some v => q v
  | none => "null"

/-- Line 133 with the template's quoting: the rendered companion-count
token, always a single-quoted literal. -/
def accompanyingField (s : String) : String :=
  q (parse_accompanying_count s)

/-- Line 140 with the template's quoting: the interest JSON text,
SQL-escaped and single-quoted. -/
def areaField (i : String) : String :=
  q (String.mk (escQuoteChars (parse_area_of_interest i).toList))

/-- The fixed text of the INSERT statement before the generated id. -/
def stmtPre : String :=
  "INSERT INTO \"public\".\"visitors\" (\"id\",\"name\",\"email\",\"phone\"," ++
  "\"register_number\",\"event_id\",\"event_name\",\"visitor_category\"," ++
  "\"qr_color\",\"qr_code\",\"purpose\",\"area_of_interest\",\"photo_url\"," ++
  "\"accompanying_count\",\"date_of_visit_from\",\"date_of_visit_to\"," ++
  "\"status\",\"has_arrived\",\"arrived_at\",\"checked_in_by\"," ++
  "\"created_at\",\"updated_at\") VALUES (" ++ qs

/-- The text of the INSERT statement after the generated id: the row's
normalized fields interleaved with the fixed constant columns. -/
def rowSuffix (r : Row) : String :=
  qs ++ "," ++ q (nameContent r.name) ++ "," ++ emailField r.emailID ++ "," ++
  phoneField r.mobile ++ ",null," ++ q "65fe748f-4b3b-4eab-8b3f-b8215b2a6b5c" ++
  "," ++ q "OPEN DAY 1" ++ "," ++ q "student" ++ "," ++ q "blue" ++ ",null," ++
  q "" ++ "," ++ areaField r.interest ++ ",null," ++
  accompanyingField r.columnE ++ "," ++ dateField r.visitDate ++ "," ++
  dateField r.visitDate ++ "," ++ q "approved" ++ "," ++ q "false" ++
  ",null,null," ++ q "2025-11-26 00:00:00+00" ++ "," ++
  q "2025-11-26 00:00:00+00" ++ ");"

/-- Line 143: one rendered INSERT statement for a generated id and a row. -/
def renderRow (visitor_id : String) (r : Row) : String :=
  stmtPre ++ visitor_id ++ rowSuffix r

/-- The row loop (lines 121–145), with the per-row `generate_uuid()` calls
modelled by the oracle `g` indexed by row position. -/
def processRowsAux (g : Nat → String) : Nat → List Row → List String
  | _, [] => []
  | i, r :: rs => renderRow (g i) r :: processRowsAux g (i + 1) rs

/-- Line 119 and the loop: process the first 100 rows in order. -/
def processRows (g : Nat → String) (rows : List Row) : List String :=
  processRowsAux g 0 (rows.take 100)

/-- Lines 148–150: the output artifact's text, newline-joined statements. -/
def mkOutput (g : Nat → String) (rows : List Row) : String :=
  String.intercalate "\n" (processRows g rows)

/-! ## Example rows used by concrete witnesses -/

/-- A sample filled-in row. -/
def rowA : Row :=
  ⟨"Alice", "A.B@Example.com", "+1 (555) 123-4567", "Father and John",
   "Sunday 30th November 2025", "Tech, Art"⟩

/-- A sample row with empty name and unusable optional fields. -/
def rowB : Row :=
  ⟨"", "not-an-email", "12345", "", "no date here", ""⟩

/-! ## Claim-side definitions

These definitions follow the wording of spec claims (not the code) and are
used to compare the claimed behaviour against the embedded source. -/

/-- Claim-side companion splitting: in a single pass, split on commas,
semicolons, ampersands, newlines, the whitespace-surrounded word `and`,
and whitespace-surrounded hyphens — exactly the delimiters the claim
lists, with no other separator (fuel-indexed one-pass scanner; empty
segments are dropped by the caller just as in the claim). -/
def claimSplitF : Nat → List Char → List (List Char)
  | 0, l => [l]
  | _ + 1, [] => [[]]
  | fuel + 1, c :: rest =>
    if isListDelim c then [] :: claimSplitF fuel rest
    else if pySpace c then
      match rest.dropWhile pySpace with
      | 'a' :: 'n' :: 'd' :: c2 :: rest2 =>
        if pySpace c2 then [] :: claimSplitF fuel (rest2.dropWhile pySpace)
        else
          match claimSplitF fuel rest with
          | [] => [[c]]
          | p :: ps => (c :: p) :: ps
      | '-' :: c2 :: rest2 =>
        if pySpace c2 then [] :: claimSplitF fuel (rest2.dropWhile pySpace)
        else
          match claimSplitF fuel rest with
          | [] => [[c]]
          | p :: ps => (c :: p) :: ps
      | _ =>
        match claimSplitF fuel rest with
        | [] => [[c]]
        | p :: ps => (c :: p) :: ps
    else
      match claimSplitF fuel rest with
      | [] => [[c]]
      | p :: ps => (c :: p) :: ps

/-- The companion-count function as claim C2 words it: empty or
whitespace-only gives `0`; a trimmed lowercased "nobody" phrase gives `0`;
otherwise parenthesized content is removed, the text is split on the
claim's listed delimiters in one pass, and each trimmed non-empty segment
counts one unless it equals a role word. -/
def companionCountClaim (s : String) : String :=
  let l := s.toList
  if l.isEmpty || (pyStrip l).isEmpty then "0"
  else
    let text := lowerL (pyStrip l)
    if nobodyPhrases.contains text then "0"
    else
      let t1 := removeParensF (text.length + 1) text
      let parts := ((claimSplitF (t1.length + 1) t1).map pyStrip).filter (fun p => p ≠ [])
      natToDec (parts.foldl
        (fun acc p => if roleWords.contains (lowerL p) then acc else acc + 1) 0)

/-- The companion-count function as the amended claim words it: as the
original claim, except that the delimiter rewrites are applied one after
another (list delimiters first, then whitespace-surrounded `and`, then
whitespace-surrounded hyphens), each rewrite replacing its matches by a
vertical-bar sentinel before the next rewrite runs, and the text is then
split on vertical bars — so a literal vertical bar in the input also
separates segments, and a delimiter whose surrounding whitespace was
consumed by an earlier rewrite no longer matches a later one. Each
trimmed non-empty segment contributes one to the count unless it equals a
role word. -/
def companionCountAmended (s : String) : String :=
  let l := s.toList
  if l.isEmpty || (pyStrip l).isEmpty then "0"
  else
    let text := lowerL (pyStrip l)
    if nobodyPhrases.contains text then "0"
    else
      let t1 := removeParensF (text.length + 1) text
      let t2 := subDelimsF (t1.length + 1) t1
      let t3 := subAndF (t2.length + 1) t2
      let t4 := subHyphF (t3.length + 1) t3
      let parts := ((splitBar t4).map pyStrip).filter (fun p => p ≠ [])
      natToDec (parts.countP (fun p => ! roleWords.contains (lowerL p)))

/-- Claim-side date-pattern containment: the text contains, somewhere, a
digit run with an ordinal suffix, then whitespace, then a word that is a
recognized month name (case-insensitively), then whitespace and four
digits — claim C4's hypothesis "the text contains a day number with
ordinal suffix, then a recognized full English month name, then a 4-digit
year, in that order" (fuel-indexed scan over all starting positions). -/
def hasRecognizedDateF : Nat → List Char → Bool
  | 0, _ => false
  | _ + 1, [] => false
  | fuel + 1, c :: rest =>
    if c.isDigit then
      let r1 := (c :: rest).dropWhile Char.isDigit
      match dateTail r1 with
      | some (month, _) =>
        (monthNum (lowerL month)).isSome || hasRecognizedDateF fuel r1
      | none => hasRecognizedDateF fuel r1
    else hasRecognizedDateF fuel rest

/-- Whether a text contains a recognized date occurrence anywhere. -/
def hasRecognizedDate (s : String) : Bool :=
  hasRecognizedDateF (s.toList.length + 1) s.toList

/-- The email pattern as claim C5 words it: one or more allowed (local)
characters, an at-sign, a domain of domain characters containing at least
one dot, and a final label of at least two letters. -/
def emailPatternProp (l : List Char) : Prop :=
  ∃ locPart domPart tld : List Char,
    l = locPart ++ '@' :: (domPart ++ '.' :: tld) ∧
    locPart ≠ [] ∧ (∀ c ∈ locPart, isLocalChar c) ∧
    domPart ≠ [] ∧ (∀ c ∈ domPart, isDomainChar c) ∧
    2 ≤ tld.length ∧ (∀ c ∈ tld, c.isAlpha)

/-- Evenness of single-quote runs: scanning left to right, every
single-quote character is immediately followed by a second one that closes
it. This is exactly "contains no unescaped single quote" for the content
of an SQL string literal. -/
def quoteRunsEven : List Char → Bool
  | [] => true
  | c :: rest =>
    if c = qc then
      match rest with
      | [] => false
      | c2 :: rest2 => c2 = qc && quoteRunsEven rest2
    else quoteRunsEven rest

/-! ## Concrete evaluation checks (scratch examples of the embedded functions) -/

example : clean_phone "+1 (555) 123-4567" = some "5551234567" := by decide
example : clean_phone "12345" = none := by decide
example : clean_phone "" = none := by decide
example : parse_accompanying_count "" = "0" := by decide
example : parse_accompanying_count "   " = "0" := by decide
example : parse_accompanying_count "Alone" = "0" := by decide
example : parse_accompanying_count "Father, Mother" = "0" := by decide
example : parse_accompanying_count "John, Mary" = "2" := by decide
example : parse_accompanying_count "Father and John" = "1" := by decide
example : parse_accompanying_count "john|mary" = "2" := by decide
example : parse_accompanying_count "father - and - mother" = "2" := by decide
example : parse_accompanying_count "wife (and kids)" = "0" := by decide
example : parse_accompanying_count "elder sister Jane" = "1" := by decide
example : parse_area_of_interest "" = "[]" := by decide
example : parse_area_of_interest "Tech, Art" = "[\"Tech\",\"Art\"]" := by decide
example : parse_area_of_interest "He said \"hi\"" = "[\"He said \\\"hi\\\"\"]" := by decide
example : parse_area_of_interest "a,,b , " = "[\"a\",\"b\"]" := by decide
example : parse_date "Sunday 30th November 2025" = some "2025-11-30" := by decide
example : parse_date "no date here" = none := by decide
example : parse_date "31st February 2025" = some "2025-02-31" := by decide
example : parse_date "1st Foo 2024 2nd May 2023" = none := by decide
example : parse_date "5th november 2025" = some "2025-11-05" := by decide
example : escape_sql_string (some ("O" ++ qs ++ "Brien"))
    = some ("O" ++ qs ++ qs ++ "Brien") := by decide
example : validate_email "A.B@Example.com" = some "a.b@example.com" := by decide
example : validate_email "not-an-email" = none := by decide
example : validate_email "a@b..com" = some "a@b..com" := by decide
example : validate_email "a@.com" = none := by decide
example : validate_email "a@b.c" = none := by decide
example : validate_email "" = none := by decide
example : companionCountClaim "john|mary" = "1" := by decide
example : companionCountClaim "Father and John" = "1" := by decide
example : companionCountClaim "John, Mary" = "2" := by decide
example : hasRecognizedDate "1st Foo 2024 2nd May 2023" = true := by decide
example : hasRecognizedDate "no date" = false := by decide

/-! ## General lemmas -/

theorem dropWhile_head_false {p : Char → Bool} {l : List Char} {c : Char}
    {t : List Char} (h : l.dropWhile p = c :: t) : p c = false := by
  induction l with
  | nil => simp [List.dropWhile] at h
  | cons a as ih =>
    rw [List.dropWhile_cons] at h
    by_cases hp : p a = true
    · simp [hp] at h; exact ih h
    · simp [hp] at h; rw [← h.1]; simpa using hp

theorem takeWhile_append_false {p : Char → Bool} {xs : List Char} {c : Char}
    (ys : List Char) (hxs : ∀ x ∈ xs, p x) (hc : p c = false) :
    (xs ++ c :: ys).takeWhile p = xs := by
  induction xs with
  | nil => simp [List.takeWhile, hc]
  | cons a as ih =>
    have ha : p a = true := hxs a (by simp)
    simp only [List.cons_append, List.takeWhile_cons, ha, if_true]
    rw [ih (fun x hx => hxs x (by simp [hx]))]

theorem dropWhile_append_false {p : Char → Bool} {xs : List Char} {c : Char}
    (ys : List Char) (hxs : ∀ x ∈ xs, p x) (hc : p c = false) :
    (xs ++ c :: ys).dropWhile p = c :: ys := by
  induction xs with
  | nil => simp [List.dropWhile, hc]
  | cons a as ih =>
    have ha : p a = true := hxs a (by simp)
    simp only [List.cons_append, List.dropWhile_cons, ha, if_true]
    exact ih (fun x hx => hxs x (by simp [hx]))

theorem string_eq_of_data {s t : String} (h : s.data = t.data) : s = t := by
  cases s; cases t; simp_all

theorem pyStrip_eq_nil_all_space {l : List Char} (h : pyStrip l = []) :
    ∀ c ∈ l, pySpace c := by
  unfold pyStrip at h
  have h2 : (l.dropWhile pySpace).reverse.dropWhile pySpace = [] := by
    have := congrArg List.reverse h
    simpa using this
  have h3 : ∀ c ∈ (l.dropWhile pySpace).reverse, pySpace c :=
    List.dropWhile_eq_nil_iff.mp h2
  have h4 : ∀ c ∈ l.dropWhile pySpace, pySpace c := fun c hc =>
    h3 c (List.mem_reverse.mpr hc)
  intro c hc
  rw [← List.takeWhile_append_dropWhile pySpace l] at hc
  rcases List.mem_append.mp hc with h5 | h5
  · exact List.mem_takeWhile_imp h5
  · exact h4 c h5

theorem splitComma_no_comma {l : List Char} (h : ∀ c ∈ l, c ≠ ',') :
    splitComma l = [l] := by
  induction l with
  | nil => rfl
  | cons a as ih =>
    have ha : a ≠ ',' := h a (by simp)
    rw [splitComma, if_neg ha, ih (fun c hc => h c (by simp [hc]))]

theorem digitChar_isDigit (m : Nat) : (digitChar m).isDigit = true := by
  unfold digitChar
  split <;> decide

theorem natToDecAux_digits :
    ∀ (fuel n : Nat) (acc : List Char), (∀ c ∈ acc, c.isDigit) →
      ∀ c ∈ natToDecAux fuel n acc, c.isDigit := by
  intro fuel
  induction fuel with
  | zero => intro n acc hacc; exact hacc
  | succ f ih =>
    intro n acc hacc c hc
    rw [natToDecAux] at hc
    by_cases hn : n = 0
    · rw [if_pos hn] at hc; exact hacc c hc
    · rw [if_neg hn] at hc
      exact ih (n / 10) _ (by
        intro x hx
        rcases List.mem_cons.mp hx with h1 | h1
        · rw [h1]; exact digitChar_isDigit _
        · exact hacc x h1) c hc

theorem natToDec_digits (n : Nat) : ∀ c ∈ (natToDec n).toList, c.isDigit := by
  unfold natToDec
  by_cases hn : n = 0
  · rw [if_pos hn]; decide
  · rw [if_neg hn]
    exact natToDecAux_digits (n + 1) n [] (by simp)

theorem escQuoteChars_quoteRunsEven (l : List Char) :
    quoteRunsEven (escQuoteChars l) = true := by
  induction l with
  | nil => rfl
  | cons c rest ih =>
    rw [escQuoteChars]
    by_cases hc : c = qc
    · rw [if_pos hc, quoteRunsEven.eq_def]
      simp [ih]
    · rw [if_neg hc, quoteRunsEven.eq_def]
      simp only [if_neg hc]
      exact ih

theorem quoteRunsEven_of_no_quote {l : List Char} (h : ∀ c ∈ l, c ≠ qc) :
    quoteRunsEven l = true := by
  induction l with
  | nil => rfl
  | cons c rest ih =>
    rw [quoteRunsEven.eq_def]
    simp only [if_neg (h c (by simp))]
    exact ih (fun x hx => h x (by simp [hx]))

theorem isDigit_ne_quote {c : Char} (h : c.isDigit = true) : c ≠ qc := by
  intro hc
  rw [hc] at h
  exact absurd h (by decide)

theorem emailRegexMatch_iff (l : List Char) :
    emailRegexMatch l = true ↔ emailPatternProp l := by
  constructor
  · intro h
    unfold emailRegexMatch at h
    rcases hd : l.dropWhile isLocalChar with _ | ⟨a, dom⟩
    · rw [hd] at h; simp at h
    · rw [hd] at h
      simp only [Bool.and_eq_true, decide_eq_true_eq] at h
      obtain ⟨⟨⟨⟨⟨⟨ha, hloc⟩, hdomAll⟩, hdot⟩, hlen2⟩, halpha⟩, hlen⟩ := h
      have hsplit : dom.reverse
          = dom.reverse.takeWhile (fun c => decide (c ≠ '.'))
            ++ dom.reverse.dropWhile (fun c => decide (c ≠ '.')) :=
        (List.takeWhile_append_dropWhile _ _).symm
      have hdotmem : '.' ∈ dom := by simpa [List.contains] using hdot
      obtain ⟨c0, dTail, hdRev⟩ :
          ∃ c0 t, dom.reverse.dropWhile (fun c => decide (c ≠ '.')) = c0 :: t := by
        cases hcase : dom.reverse.dropWhile (fun c => decide (c ≠ '.')) with
        | nil =>
          have hall := List.dropWhile_eq_nil_iff.mp hcase
          have := hall '.' (List.mem_reverse.mpr hdotmem)
          simp at this
        | cons c0 t => exact ⟨c0, t, rfl⟩
      have hc0 : c0 = '.' := by
        have := dropWhile_head_false hdRev
        simpa using this
      subst hc0
      have hdomrev : dom.reverse
          = dom.reverse.takeWhile (fun c => decide (c ≠ '.')) ++ '.' :: dTail := by
        rw [hdRev] at hsplit
        exact hsplit
      have hdom : dom
          = dTail.reverse
            ++ '.' :: (dom.reverse.takeWhile (fun c => decide (c ≠ '.'))).reverse := by
        have h2 := congrArg List.reverse hdomrev
        simpa [List.reverse_append, List.append_assoc] using h2
      refine ⟨l.takeWhile isLocalChar, dTail.reverse,
        (dom.reverse.takeWhile (fun c => decide (c ≠ '.'))).reverse,
        ?_, hloc, ?_, ?_, ?_, ?_, ?_⟩
      · conv_lhs => rw [← List.takeWhile_append_dropWhile isLocalChar l, hd, ha, hdom]
      · exact fun c hc => List.mem_takeWhile_imp hc
      · have hlendom : dom.length
            = dTail.length + 1
              + (dom.reverse.takeWhile (fun c => decide (c ≠ '.'))).length := by
          conv_lhs => rw [hdom]
          simp
          omega
        intro hnil
        have : dTail.length = 0 := by
          have := congrArg List.length hnil
          simpa using this
        omega
      · intro c hc
        have hcd : c ∈ dom := by
          rw [hdom]
          exact List.mem_append.mpr (Or.inl hc)
        exact List.all_eq_true.mp hdomAll c hcd
      · simpa using hlen2
      · intro c hc
        exact List.all_eq_true.mp halpha c (List.mem_reverse.mp hc)
  · rintro ⟨locPart, domPart, tld, hl, hlocne, hlocall, hdomne, hdomall, htldlen, htldalpha⟩
    have hlocb : ∀ x ∈ locPart, isLocalChar x = true := hlocall
    have htake : l.takeWhile isLocalChar = locPart := by
      rw [hl]; exact takeWhile_append_false _ hlocb (by decide)
    have hdrop : l.dropWhile isLocalChar = '@' :: (domPart ++ '.' :: tld) := by
      rw [hl]; exact dropWhile_append_false _ hlocb (by decide)
    have htldrev : ∀ c ∈ tld.reverse, (fun c => decide (c ≠ '.')) c = true := by
      intro c hc
      have hca := htldalpha c (List.mem_reverse.mp hc)
      simp only [decide_eq_true_eq]
      intro hdot
      rw [hdot] at hca
      exact absurd hca (by decide)
    have hrev : (domPart ++ '.' :: tld).reverse
        = tld.reverse ++ '.' :: domPart.reverse := by
      simp [List.reverse_append]
    have htw : ((domPart ++ '.' :: tld).reverse).takeWhile (fun c => decide (c ≠ '.'))
        = tld.reverse := by
      rw [hrev]
      exact takeWhile_append_false _ htldrev (by decide)
    unfold emailRegexMatch
    rw [hdrop]
    simp only [Bool.and_eq_true, decide_eq_true_eq, htw, htake]
    refine ⟨⟨⟨⟨⟨⟨by decide, hlocne⟩, ?_⟩, ?_⟩, ?_⟩, ?_⟩, ?_⟩
    · rw [List.all_eq_true]
      intro c hc
      rcases List.mem_append.mp hc with h1 | h1
      · exact hdomall c h1
      · rcases List.mem_cons.mp h1 with h2 | h2
        · rw [h2]; decide
        · have := htldalpha c h2
          unfold isDomainChar
          rw [this]
          rfl
    · simp [List.contains]
    · simpa using htldlen
    · rw [List.all_eq_true]
      intro c hc
      exact htldalpha c (List.mem_reverse.mp hc)
    · have h1 : 1 ≤ domPart.length := by
        cases hD : domPart with
        | nil => exact absurd hD hdomne
        | cons x xs => simp [hD]
      simp only [List.length_reverse, List.length_append, List.length_cons]
      omega

theorem isLocalChar_ne_quote {c : Char} (h : isLocalChar c = true) : c ≠ qc := by
  intro hc; rw [hc] at h; exact absurd h (by decide)

theorem isDomainChar_ne_quote {c : Char} (h : isDomainChar c = true) : c ≠ qc := by
  intro hc; rw [hc] at h; exact absurd h (by decide)

theorem isAlpha_ne_quote {c : Char} (h : c.isAlpha = true) : c ≠ qc := by
  intro hc; rw [hc] at h; exact absurd h (by decide)

theorem emailMatch_no_quote {l : List Char} (h : emailRegexMatch l = true) :
    ∀ c ∈ l, c ≠ qc := by
  obtain ⟨locPart, domPart, tld, hl, -, hlocall, -, hdomall, -, htldalpha⟩ :=
    (emailRegexMatch_iff l).mp h
  intro c hc
  rw [hl] at hc
  rcases List.mem_append.mp hc with h1 | h1
  · exact isLocalChar_ne_quote (hlocall c h1)
  · rcases List.mem_cons.mp h1 with h2 | h2
    · rw [h2]; decide
    · rcases List.mem_append.mp h2 with h3 | h3
      · exact isDomainChar_ne_quote (hdomall c h3)
      · rcases List.mem_cons.mp h3 with h4 | h4
        · rw [h4]; decide
        · exact isAlpha_ne_quote (htldalpha c h4)

theorem emailMatch_ne_nil {l : List Char} (h : emailRegexMatch l = true) :
    l ≠ [] := by
  obtain ⟨locPart, domPart, tld, hl, hlocne, -⟩ := (emailRegexMatch_iff l).mp h
  rw [hl]
  intro hnil
  rcases locPart with _ | ⟨x, xs⟩
  · simp at hnil
  · simp at hnil

theorem validate_email_some {s v : String} (h : validate_email s = some v) :
    v.data = lowerL (pyStrip s.toList) ∧ emailRegexMatch v.data = true := by
  unfold validate_email at h
  dsimp only at h
  split at h
  · exact absurd h (by simp)
  · split at h
    · rename_i hm
      obtain rfl : String.mk (lowerL (pyStrip s.toList)) = v := Option.some.inj h
      exact ⟨rfl, hm⟩
    · exact absurd h (by simp)

theorem clean_phone_some {s v : String} (h : clean_phone s = some v) :
    (∀ c ∈ v.data, c.isDigit) ∧ v.data ≠ [] := by
  unfold clean_phone at h
  dsimp only at h
  split at h
  · exact absurd h (by simp)
  · split at h
    · split at h
      · exact absurd h (by simp)
      · rename_i hlt
        obtain rfl := Option.some.inj h
        dsimp only at hlt ⊢
        constructor
        · intro c hc
          exact List.of_mem_filter (List.mem_of_mem_drop hc)
        · intro hnil
          have h0 := congrArg List.length hnil
          simp only [List.length_nil] at h0
          omega
    · split at h
      · exact absurd h (by simp)
      · rename_i hlt
        obtain rfl := Option.some.inj h
        dsimp only at hlt ⊢
        constructor
        · intro c hc
          exact List.of_mem_filter hc
        · intro hnil
          have h0 := congrArg List.length hnil
          simp only [List.length_nil] at h0
          omega

theorem clean_phone_characterization (s : String) :
    clean_phone s =
      (if (s.toList.filter Char.isDigit).length < 10 then none
       else some (String.mk ((s.toList.filter Char.isDigit).drop
         ((s.toList.filter Char.isDigit).length - 10)))) := by
  unfold clean_phone
  dsimp only
  by_cases hs : s = ""
  · subst hs
    decide
  · rw [if_neg hs]
    by_cases hlen : (s.toList.filter Char.isDigit).length > 10
    · rw [if_pos hlen]
      rw [if_neg (show ¬ ((s.toList.filter Char.isDigit).drop
          ((s.toList.filter Char.isDigit).length - 10)).length < 10 by
        rw [List.length_drop]; omega)]
      rw [if_neg (show ¬ (s.toList.filter Char.isDigit).length < 10 by omega)]
    · rw [if_neg hlen]
      by_cases hlt : (s.toList.filter Char.isDigit).length < 10
      · rw [if_pos hlt, if_pos hlt]
      · rw [if_neg hlt, if_neg hlt]
        have h0 : (s.toList.filter Char.isDigit).length - 10 = 0 := by omega
        rw [h0, List.drop_zero]

theorem dateTail_some {l m y : List Char} (h : dateTail l = some (m, y)) :
    (∀ c ∈ y, c.isDigit) ∧ y ≠ [] := by
  unfold dateTail at h
  dsimp only at h
  split at h
  · split at h
    · split at h
      · split at h
        · split at h
          · exact absurd h (by simp)
          · split at h
            · split at h
              · split at h
                · rename_i hguard
                  simp only [Bool.and_eq_true, decide_eq_true_eq] at hguard
                  have h2 := Option.some.inj h
                  rw [Prod.mk.injEq] at h2
                  obtain ⟨-, rfl⟩ := h2
                  refine ⟨List.all_eq_true.mp hguard.2, ?_⟩
                  intro hnil
                  have h0 := congrArg List.length hnil
                  rw [hguard.1] at h0
                  simp at h0
                · exact absurd h (by simp)
              · exact absurd h (by simp)
            · exact absurd h (by simp)
        · exact absurd h (by simp)
      · exact absurd h (by simp)
    · exact absurd h (by simp)
  · exact absurd h (by simp)

theorem findDateMatchF_some :
    ∀ (fuel : Nat) (l d m y : List Char),
      findDateMatchF fuel l = some (d, m, y) →
      (∀ c ∈ d, c.isDigit) ∧ d ≠ [] ∧ (∀ c ∈ y, c.isDigit) ∧ y ≠ [] := by
  intro fuel
  induction fuel with
  | zero => intro l d m y h; exact absurd h (by simp [findDateMatchF])
  | succ f ih =>
    intro l d m y h
    match l with
    | [] => exact absurd h (by simp [findDateMatchF])
    | c :: rest =>
      rw [findDateMatchF] at h
      dsimp only at h
      split at h
      · rename_i hc
        split at h
        · rename_i month year htail
          have h2 := Option.some.inj h
          simp only [Prod.mk.injEq] at h2
          obtain ⟨rfl, rfl, rfl⟩ := h2
          obtain ⟨hy, hyne⟩ := dateTail_some htail
          refine ⟨fun x hx => List.mem_takeWhile_imp hx, ?_, hy, hyne⟩
          rw [List.takeWhile_cons, if_pos hc]
          simp
        · exact ih _ _ _ _ h
      · exact ih _ _ _ _ h

theorem zfill2_digits {l : List Char} (h : ∀ c ∈ l, c.isDigit) :
    ∀ c ∈ zfill2 l, c.isDigit := by
  unfold zfill2
  split
  · exact h
  · split
    · intro c hc
      rcases List.mem_cons.mp hc with h1 | h1
      · rw [h1]; decide
      · exact h c h1
    · intro c hc
      rcases List.mem_cons.mp hc with h1 | h1
      · rw [h1]; decide
      · rcases List.mem_cons.mp h1 with h2 | h2
        · rw [h2]; decide
        · exact h c h2

theorem monthNum_some {m : List Char} {mm : String} (h : monthNum m = some mm) :
    ∀ c ∈ mm.data, c.isDigit := by
  unfold monthNum at h
  cases hf : monthsTable.find? (fun p => p.1 = m) with
  | none => rw [hf] at h; exact absurd h (by simp)
  | some p0 =>
    rw [hf] at h
    obtain rfl : p0.2 = mm := Option.some.inj h
    have hmem : p0 ∈ monthsTable := List.mem_of_find?_eq_some hf
    have hall : ∀ p ∈ monthsTable, ∀ c ∈ p.2.data, c.isDigit := by decide
    exact hall p0 hmem

theorem parse_date_some {s v : String} (h : parse_date s = some v) :
    (∀ c ∈ v.data, c.isDigit ∨ c = '-') ∧ v.data ≠ [] := by
  unfold parse_date at h
  split at h
  · exact absurd h (by simp)
  · split at h
    · exact absurd h (by simp)
    · rename_i d m y hf
      split at h
      · exact absurd h (by simp)
      · rename_i mm hmn
        obtain rfl := Option.some.inj h
        obtain ⟨hd, hdne, hy, hyne⟩ := findDateMatchF_some _ _ _ _ _ hf
        have hdata : (String.mk y ++ "-" ++ mm ++ "-" ++ String.mk (zfill2 d)).data
            = y ++ '-' :: (mm.data ++ '-' :: zfill2 d) := by
          simp [String.data_append]
        rw [hdata]
        constructor
        · intro c hc
          rcases List.mem_append.mp hc with h1 | h1
          · exact Or.inl (hy c h1)
          · rcases List.mem_cons.mp h1 with h2 | h2
            · exact Or.inr h2
            · rcases List.mem_append.mp h2 with h3 | h3
              · exact Or.inl (monthNum_some hmn c h3)
              · rcases List.mem_cons.mp h3 with h4 | h4
                · exact Or.inr h4
                · exact Or.inl (zfill2_digits hd c h4)
        · intro hnil
          rcases y with _ | ⟨c, cs⟩
          · exact hyne rfl
          · simp at hnil

theorem escQuoteChars_eq_flatten (l : List Char) :
    escQuoteChars l = (l.map (fun c => if c = qc then [qc, qc] else [c])).flatten := by
  induction l with
  | nil => rfl
  | cons c rest ih =>
    rw [escQuoteChars, List.map_cons, List.flatten]
    by_cases hc : c = qc
    · rw [if_pos hc, if_pos hc, ih]; rfl
    · rw [if_neg hc, if_neg hc, ih]; rfl

theorem parse_accompanying_count_digits (s : String) :
    ∀ c ∈ (parse_accompanying_count s).data, c.isDigit := by
  unfold parse_accompanying_count
  dsimp only
  split
  · decide
  · split
    · decide
    · exact natToDec_digits _

theorem parse_accompanying_count_numeral (s : String) :
    ∃ n : Nat, parse_accompanying_count s = natToDec n := by
  unfold parse_accompanying_count
  dsimp only
  split
  · exact ⟨0, rfl⟩
  · split
    · exact ⟨0, rfl⟩
    · exact ⟨_, rfl⟩

theorem foldl_count_eq (parts : List (List Char)) :
    ∀ acc : Nat,
      parts.foldl
        (fun acc p => if roleWords.contains (lowerL p) then acc else acc + 1) acc
        = acc + parts.countP (fun p => ! roleWords.contains (lowerL p)) := by
  induction parts with
  | nil => intro acc; simp
  | cons p ps ih =>
    intro acc
    rw [List.foldl_cons, List.countP_cons]
    by_cases hp : roleWords.contains (lowerL p) = true
    · rw [if_pos hp, ih, hp]
      have h1 : (if (!true) = true then 1 else 0) = 0 := rfl
      rw [h1]
      omega
    · have hp2 : roleWords.contains (lowerL p) = false := by simpa using hp
      rw [if_neg hp, ih, hp2]
      have h1 : (if (!false) = true then 1 else 0) = 1 := rfl
      rw [h1]
      omega

theorem q_ne_null (x : String) : q x ≠ "null" := by
  intro h
  have hd := congrArg String.data h
  simp only [q, qs, String.singleton, String.data_append] at hd
  have hq := List.head_eq_of_cons_eq hd
  exact absurd hq (by decide)

theorem q_content_inj {a b : String} (h : q a = q b) : a = b := by
  have hd := congrArg String.data h
  simp only [q, qs, String.singleton, String.data_append] at hd
  have h2 := List.tail_eq_of_cons_eq hd
  have h3 := List.append_cancel_right h2
  exact string_eq_of_data h3

theorem processRowsAux_length (g : Nat → String) :
    ∀ (k : Nat) (l : List Row), (processRowsAux g k l).length = l.length := by
  intro k l
  induction l generalizing k with
  | nil => rfl
  | cons r rs ih =>
    rw [processRowsAux]
    simp [ih]

theorem processRowsAux_getD (g : Nat → String) :
    ∀ (l : List Row) (k i : Nat), i < l.length →
      (processRowsAux g k l).getD i "" = renderRow (g (k + i)) (l.getD i default) := by
  intro l
  induction l with
  | nil => intro k i h; simp at h
  | cons r rs ih =>
    intro k i h
    cases i with
    | zero => rw [processRowsAux]; rfl
    | succ j =>
      rw [processRowsAux]
      have h2 := ih (k + 1) j (by simpa using h)
      simp only [List.getD_cons_succ]
      rw [h2]
      have h3 : k + 1 + j = k + (j + 1) := by omega
      rw [h3]

theorem processRowsAux_forall₂ (g g' : Nat → String) :
    ∀ (l : List Row) (k : Nat),
      List.Forall₂
        (fun s s' => ∃ u u' t, s = stmtPre ++ u ++ t ∧ s' = stmtPre ++ u' ++ t)
        (processRowsAux g k l) (processRowsAux g' k l) := by
  intro l
  induction l with
  | nil => intro k; exact List.Forall₂.nil
  | cons r rs ih =>
    intro k
    rw [processRowsAux, processRowsAux]
    exact List.Forall₂.cons ⟨g k, g' k, rowSuffix r, rfl, rfl⟩ (ih (k + 1))

theorem area_entries_nil {s : String}
    (hcond : (s.toList.isEmpty || (pyStrip s.toList).isEmpty) = true) :
    ((splitComma s.toList).map pyStrip).filter (fun p => p ≠ []) = [] := by
  simp only [Bool.or_eq_true, List.isEmpty_iff] at hcond
  rcases hcond with h1 | h1
  · rw [h1]; rfl
  · have hsp := pyStrip_eq_nil_all_space h1
    have hnc : ∀ c ∈ s.toList, c ≠ ',' := by
      intro c hc heq
      have hw := hsp c hc
      rw [heq] at hw
      exact absurd hw (by decide)
    rw [splitComma_no_comma hnc]
    simp only [List.map_cons, List.map_nil]
    rw [h1]
    rfl

theorem parse_area_characterization (s : String) :
    parse_area_of_interest s =
      "[" ++ String.intercalate ","
        ((((splitComma s.toList).map pyStrip).filter (fun p => p ≠ [])).map
          (fun i => "\"" ++ String.mk (escDq i) ++ "\"")) ++ "]" := by
  unfold parse_area_of_interest
  dsimp only
  split
  · rename_i hcond
    rw [area_entries_nil hcond]
    rfl
  · rfl

/-! ## Claim theorems -/

/-- C1: for every identifier oracle and input dataset, the pipeline
processes exactly the first 100 data rows (all rows if fewer), produces
exactly one rendered insertion statement per processed row, preserves input
order, and the output artifact is the statements joined by single newline
characters. -/
theorem claim_C1 (g : Nat → String) (rows : List Row) :
    (processRows g rows).length = min 100 rows.length
    ∧ (∀ i, i < min 100 rows.length →
        (processRows g rows).getD i "" = renderRow (g i) (rows.getD i default))
    ∧ mkOutput g rows = String.intercalate "\n" (processRows g rows) := by
  refine ⟨?_, ?_, rfl⟩
  · rw [processRows, processRowsAux_length, List.length_take]
  · intro i hi
    have hlen : i < (rows.take 100).length := by
      rw [List.length_take]; exact hi
    rw [processRows, processRowsAux_getD g _ 0 i hlen, Nat.zero_add]
    congr 1
    rw [List.getD_eq_getElem?_getD, List.getD_eq_getElem?_getD, List.getElem?_take]
    have hi100 : i < 100 := lt_of_lt_of_le hi (Nat.min_le_left _ _)
    simp [hi100]

/-- C1 witness: the second statement of a two-row run is the rendering of
the second row with the second generated identifier. -/
theorem claim_C1_witness :
    (processRows (fun n => natToDec n) [rowA, rowB]).getD 1 ""
      = renderRow (natToDec 1) ([rowA, rowB].getD 1 default) :=
  (claim_C1 (fun n => natToDec n) [rowA, rowB]).2.1 1 (by decide)

/-- C2 counterexample: the claim's delimiter list is exhaustive, so on the
input `john|mary` (which contains none of the listed delimiters) the
claimed algorithm yields one segment and the count `1`; the code, which
uses the vertical bar as its internal split sentinel, yields `2`. -/
theorem claim_C2_counterexample :
    companionCountClaim "john|mary" = "1"
    ∧ parse_accompanying_count "john|mary" = "2" := ⟨by decide, by decide⟩

/-- C2 (amended): the companion count behaves as claimed except that the
delimiter rewrites are applied sequentially with a vertical-bar sentinel
(so a literal vertical bar also separates segments, and whitespace consumed
by an earlier rewrite no longer feeds a later delimiter); empty and
"nobody" inputs give 0, role-word segments are not counted, and the
claim's examples hold. -/
theorem claim_C2 :
    (∀ s, parse_accompanying_count s = companionCountAmended s)
    ∧ parse_accompanying_count "" = "0"
    ∧ parse_accompanying_count "alone" = "0"
    ∧ parse_accompanying_count "Father, Mother" = "0"
    ∧ parse_accompanying_count "John, Mary" = "2"
    ∧ parse_accompanying_count "Father and John" = "1" := by
  refine ⟨?_, by decide, by decide, by decide, by decide, by decide⟩
  intro s
  unfold parse_accompanying_count companionCountAmended
  dsimp only
  split
  · rfl
  · split
    · rfl
    · rw [foldl_count_eq, Nat.zero_add]

/-- C3: the phone normalizer keeps exactly the digits of its input; more
than 10 digits keep the last 10, fewer than 10 (including empty input)
give absent, and exactly 10 pass through unchanged. It is a total
function, so it never raises. -/
theorem claim_C3 :
    (∀ s, clean_phone s =
      (if (s.toList.filter Char.isDigit).length < 10 then none
       else some (String.mk ((s.toList.filter Char.isDigit).drop
         ((s.toList.filter Char.isDigit).length - 10)))))
    ∧ clean_phone "+1 (555) 123-4567" = some "5551234567"
    ∧ clean_phone "12345" = none
    ∧ clean_phone "" = none
    ∧ clean_phone "0123456789" = some "0123456789"
    ∧ clean_phone "+910123456789" = some "0123456789" :=
  ⟨clean_phone_characterization, by decide, by decide, by decide, by decide,
   by decide⟩

/-- C4 counterexample: the text `1st Foo 2024 2nd May 2023` contains a day
number with ordinal suffix followed by the recognized month `May` and a
4-digit year, so the claim requires a parsed date; the code inspects only
the leftmost pattern occurrence (`1st Foo 2024`), whose month word is
unrecognized, and returns absent. -/
theorem claim_C4_counterexample :
    hasRecognizedDate "1st Foo 2024 2nd May 2023" = true
    ∧ parse_date "1st Foo 2024 2nd May 2023" = none := ⟨by decide, by decide⟩

/-- C4 (amended): the date parser inspects only the leftmost occurrence of
day-ordinal / word / 4-digit-year; it returns `YYYY-MM-DD` (month looked
up case-insensitively, day zero-padded to at least two digits) when that
occurrence's word is a recognized month, and absent when there is no
occurrence or the leftmost occurrence's month word is unrecognized; the
day is not validated against the month. -/
theorem claim_C4 :
    (∀ (s : String) (d m y : List Char),
        findDateMatch s.toList = some (d, m, y) →
        parse_date s = (monthNum (lowerL m)).map
          (fun mm => String.mk y ++ "-" ++ mm ++ "-" ++ String.mk (zfill2 d)))
    ∧ (∀ s : String, findDateMatch s.toList = none → parse_date s = none)
    ∧ parse_date "Sunday 30th November 2025" = some "2025-11-30"
    ∧ parse_date "Sunday 31st February 2025" = some "2025-02-31" := by
  refine ⟨?_, ?_, by decide, by decide⟩
  · intro s d m y h
    unfold parse_date
    by_cases hs : s = ""
    · subst hs
      simp [findDateMatch, findDateMatchF] at h
    · rw [if_neg hs, h]
      dsimp only
      cases hmn : monthNum (lowerL m) with
      | none => rfl
      | some mm => rfl
  · intro s h
    unfold parse_date
    by_cases hs : s = ""
    · rw [if_pos hs]
    · rw [if_neg hs, h]

/-- C4 witness: the amended leftmost-match rule applied at a concrete
input. -/
theorem claim_C4_witness : parse_date "10th june 2030" = some "2030-06-10" := by
  have h := claim_C4.1 "10th june 2030" "10".toList "june".toList "2030".toList
    (by decide)
  rw [h]
  decide

/-- C5: the email validator trims and lowercases its input and returns the
lowercased text exactly when the result consists of one or more allowed
local characters, an at-sign, a domain containing at least one dot, and a
final label of at least two letters; otherwise it returns absent. -/
theorem claim_C5 :
    (∀ s t : String, validate_email s = some t ↔
        (t.data = lowerL (pyStrip s.toList)
          ∧ emailPatternProp (lowerL (pyStrip s.toList))))
    ∧ validate_email "A.B@Example.com" = some "a.b@example.com"
    ∧ validate_email "not-an-email" = none := by
  refine ⟨?_, by decide, by decide⟩
  intro s t
  constructor
  · intro h
    obtain ⟨hdata, hmatch⟩ := validate_email_some h
    refine ⟨hdata, ?_⟩
    rw [← hdata]
    exact (emailRegexMatch_iff _).mp hmatch
  · rintro ⟨hdata, hprop⟩
    have hmatch : emailRegexMatch (lowerL (pyStrip s.toList)) = true :=
      (emailRegexMatch_iff _).mpr hprop
    have hne : pyStrip s.toList ≠ [] := by
      intro hnil
      rw [hnil] at hprop
      obtain ⟨loc, dom, tld, hl, hlocne, -⟩ := hprop
      rw [show lowerL ([] : List Char) = [] from rfl] at hl
      cases loc with
      | nil => simp at hl
      | cons a as => simp at hl
    unfold validate_email
    dsimp only
    rw [if_neg (show ¬ (s.toList.isEmpty || (pyStrip s.toList).isEmpty) = true by
      intro hg
      simp only [Bool.or_eq_true, List.isEmpty_iff] at hg
      rcases hg with h1 | h1
      · apply hne; rw [h1]; rfl
      · exact hne h1)]
    rw [if_pos hmatch]
    exact congrArg some (string_eq_of_data hdata.symm)

/-- C5 witness: the pattern property holds at the accepted example. -/
theorem claim_C5_witness :
    emailPatternProp (lowerL (pyStrip ("A.B@Example.com" : String).toList)) :=
  ((claim_C5.1 "A.B@Example.com" "a.b@example.com").mp (by decide)).2

/-- C6: the interest parser splits on commas, trims, drops empty entries,
backslash-escapes embedded double quotes, double-quotes each entry and
joins them with commas inside square brackets; empty input yields the
empty-array literal. -/
theorem claim_C6 :
    (∀ s, parse_area_of_interest s =
      "[" ++ String.intercalate ","
        ((((splitComma s.toList).map pyStrip).filter (fun p => p ≠ [])).map
          (fun i => "\"" ++ String.mk (escDq i) ++ "\"")) ++ "]")
    ∧ parse_area_of_interest "" = "[]"
    ∧ parse_area_of_interest "   " = "[]"
    ∧ parse_area_of_interest "Tech, Art" = "[\"Tech\",\"Art\"]"
    ∧ parse_area_of_interest "He said \"hi\"" = "[\"He said \\\"hi\\\"\"]" :=
  ⟨parse_area_characterization, by decide, by decide, by decide, by decide⟩

/-- C7 counterexample: unrecognized companion text is not rendered as
`null` — the companion-count parser is total and the statement always
carries a quoted numeric literal, here `1` for the unrecognized text
`xyzzy`. -/
theorem claim_C7_counterexample :
    accompanyingField "xyzzy" = q "1" ∧ accompanyingField "xyzzy" ≠ "null" :=
  ⟨by decide, by decide⟩

/-- C7 (amended): per-field failures of the date, email and phone
normalizers render as the unquoted token `null`, never as an empty
single-quoted literal, and the rendering functions are total; the
companion field has no failure mode: its token is never `null` and is
always the decimal rendering of a count. -/
theorem claim_C7 :
    (∀ e, validate_email e = none → emailField e = "null")
    ∧ (∀ p, clean_phone p = none → phoneField p = "null")
    ∧ (∀ d, parse_date d = none → dateField d = "null")
    ∧ (∀ e, emailField e ≠ q "")
    ∧ (∀ p, phoneField p ≠ q "")
    ∧ (∀ d, dateField d ≠ q "")
    ∧ (∀ s, accompanyingField s ≠ "null"
        ∧ ∃ n : Nat, parse_accompanying_count s = natToDec n) := by
  refine ⟨?_, ?_, ?_, ?_, ?_, ?_, ?_⟩
  · intro e h; unfold emailField; rw [h]
  · intro p h; unfold phoneField; rw [h]
  · intro d h; unfold dateField; rw [h]
  · intro e
    unfold emailField
    cases he : validate_email e with
    | none => decide
    | some v =>
      intro hc
      have hv := q_content_inj hc
      have hm := (validate_email_some he).2
      exact emailMatch_ne_nil hm (by rw [hv])
  · intro p
    unfold phoneField
    cases hp : clean_phone p with
    | none => decide
    | some v =>
      intro hc
      have hv := q_content_inj hc
      exact (clean_phone_some hp).2 (by rw [hv])
  · intro d
    unfold dateField
    cases hd : parse_date d with
    | none => decide
    | some v =>
      intro hc
      have hv := q_content_inj hc
      exact (parse_date_some hd).2 (by rw [hv])
  · intro s
    exact ⟨q_ne_null _, parse_accompanying_count_numeral s⟩

/-- C7 witness: an invalid email renders as the null token. -/
theorem claim_C7_witness : emailField "not-an-email" = "null" :=
  claim_C7.1 "not-an-email" (by decide)

/-- C8: the SQL escaper maps absent to absent and doubles every single
quote; and the content of every single-quoted literal the renderer embeds
(name, email, phone, companion count, dates, area of interest) has all its
single quotes in closed pairs, i.e. contains no unescaped single quote. -/
theorem claim_C8 :
    escape_sql_string none = none
    ∧ (∀ s, escape_sql_string (some s)
        = some (String.mk
            ((s.toList.map (fun c => if c = qc then [qc, qc] else [c])).flatten)))
    ∧ escape_sql_string (some ("O" ++ qs ++ "Brien"))
        = some ("O" ++ qs ++ qs ++ "Brien")
    ∧ (∀ n, quoteRunsEven (nameContent n).data = true)
    ∧ (∀ e v, validate_email e = some v → quoteRunsEven v.data = true)
    ∧ (∀ p v, clean_phone p = some v → quoteRunsEven v.data = true)
    ∧ (∀ s, quoteRunsEven (parse_accompanying_count s).data = true)
    ∧ (∀ d v, parse_date d = some v → quoteRunsEven v.data = true)
    ∧ (∀ i, quoteRunsEven
        (String.mk (escQuoteChars (parse_area_of_interest i).data)).data = true) := by
  refine ⟨rfl, ?_, by decide, ?_, ?_, ?_, ?_, ?_, ?_⟩
  · intro s
    unfold escape_sql_string
    dsimp only
    rw [escQuoteChars_eq_flatten]
  · intro n
    unfold nameContent
    exact escQuoteChars_quoteRunsEven _
  · intro e v h
    exact quoteRunsEven_of_no_quote (emailMatch_no_quote (validate_email_some h).2)
  · intro p v h
    exact quoteRunsEven_of_no_quote
      (fun c hc => isDigit_ne_quote ((clean_phone_some h).1 c hc))
  · intro s
    exact quoteRunsEven_of_no_quote
      (fun c hc => isDigit_ne_quote (parse_accompanying_count_digits s c hc))
  · intro d v h
    apply quoteRunsEven_of_no_quote
    intro c hc
    rcases (parse_date_some h).1 c hc with h1 | h1
    · exact isDigit_ne_quote h1
    · rw [h1]; decide
  · intro i
    exact escQuoteChars_quoteRunsEven _

/-- C8 witness: the validated email literal content has no unescaped
quote. -/
theorem claim_C8_witness : quoteRunsEven ("a.b@example.com" : String).data = true :=
  claim_C8.2.2.2.2.1 "A.B@Example.com" "a.b@example.com" (by decide)

/-- C9: every rendered statement is a fixed prefix, then the generated
identifier, then a suffix that is a deterministic function of the row
alone; hence two runs over the same rows differ only in the identifier
segment of each statement (statement counts and all other bytes agree). -/
theorem claim_C9 (g g' : Nat → String) (rows : List Row) :
    (∀ u r, renderRow u r = stmtPre ++ u ++ rowSuffix r)
    ∧ List.Forall₂
        (fun s s' => ∃ u u' t, s = stmtPre ++ u ++ t ∧ s' = stmtPre ++ u' ++ t)
        (processRows g rows) (processRows g' rows) :=
  ⟨fun _ _ => rfl, processRowsAux_forall₂ g g' _ 0⟩

/-- C10: a row with empty name is still rendered, and its name column is
the empty single-quoted literal (two adjacent quote characters), not the
null token. -/
theorem claim_C10 (u : String) (r : Row) (h : r.name = "") :
    ∃ rest, renderRow u r
      = stmtPre ++ u ++ qs ++ "," ++ qs ++ qs ++ "," ++ rest := by
  have hn : nameContent r.name = "" := by rw [h]; rfl
  refine ⟨emailField r.emailID ++ "," ++ phoneField r.mobile ++ ",null," ++
    q "65fe748f-4b3b-4eab-8b3f-b8215b2a6b5c" ++ "," ++ q "OPEN DAY 1" ++ "," ++
    q "student" ++ "," ++ q "blue" ++ ",null," ++ q "" ++ "," ++
    areaField r.interest ++ ",null," ++ accompanyingField r.columnE ++ "," ++
    dateField r.visitDate ++ "," ++ dateField r.visitDate ++ "," ++
    q "approved" ++ "," ++ q "false" ++ ",null,null," ++
    q "2025-11-26 00:00:00+00" ++ "," ++ q "2025-11-26 00:00:00+00" ++ ");", ?_⟩
  unfold renderRow rowSuffix
  rw [hn]
  unfold q
  simp only [String.append_assoc, String.append_empty, String.empty_append]

/-- C10 witness: the empty-name example row renders with an empty name
literal. -/
theorem claim_C10_witness :
    ∃ rest, renderRow "u0" rowB
      = stmtPre ++ "u0" ++ qs ++ "," ++ qs ++ qs ++ "," ++ rest :=
  claim_C10 "u0" rowB rfl
